import Mathlib

/-!
Shallow embedding of `src/values.rs` (crate `funx`): the runtime `Type` tag
lattice and the runtime value enum `V`, together with `Type::cast`,
`impl PartialEq for Type`, `V::typ`, the arithmetic operations
`V::add/sub/mul/div`, and `impl PartialEq for V`.

Modelling conventions:
* Rust `i64` is modelled as `ℤ`; the arithmetic operators apply `wrap64`
  (two's-complement wraparound), the host-default release behaviour the spec
  names as the reference overflow policy.
* Rust `f64` is modelled as `ℚ` with exact arithmetic.  The `as i64`
  conversion from a float is modelled faithfully to Rust semantics as
  truncation toward zero saturated to the `i64` range (`f64AsI64`); the
  `as f64` widening of an `i64` is modelled as the exact embedding `ℤ → ℚ`.
* AST nodes (`Node`) and native function pointers come from modules outside
  `values.rs`; this file carries them as opaque payloads, exactly as
  `values.rs` itself does.
-/

/-- Modelled from the spec: opaque AST node produced by the out-of-scope
parser.  `values.rs` never inspects nodes; it only stores them and, in its
Debug impl, forwards to their own rendering, which we carry as `txt`. -/
structure Node where
  txt : String

/-- Modelled from the spec: opaque host native-function pointer (the payload
of the `NativFunction` value variant).  `values.rs` never calls it; its Debug
impl prints an implementation-defined identity token, carried here as `id`. -/
structure NativFn where
  id : Nat

/-- The `Type` enum of `values.rs` (named `Ty` because `Type` is a Lean
keyword): `Undefined, Any, Int, Float, Bool, String, NativFunction, Function,
Addr, Closure, Union(Vec<Type>), Type`. -/
inductive Ty where
  | Undefined | Any | Int | Float | Bool | String | NativFunction | Function
  | Addr | Closure
  | Union : List Ty → Ty
  | Type

/-- The final `match (self, other)` of `impl PartialEq for Type`: identical
atomic tags compare true, every other pair false. -/
def tyAtomEq : Ty → Ty → Bool
  | .Undefined, .Undefined => true
  | .Int, .Int => true
  | .Float, .Float => true
  | .Bool, .Bool => true
  | .String, .String => true
  | .Addr, .Addr => true
  | .Closure, .Closure => true
  | .NativFunction, .NativFunction => true
  | .Function, .Function => true
  | .Type, .Type => true
  | _, _ => false

mutual
/-- `impl PartialEq for Type` (values.rs lines 71-107): `Any` on either side
is true; a `Union` against a `Union` checks that every member of the left
(self) list is contained in the right (other) list; a `Union` against a
non-union checks containment of the non-union in the union's members;
otherwise the atomic match. -/
def tyEq : Ty → Ty → Bool
  | .Any, _ => true
  | _, .Any => true
  | .Union ts, .Union os => tySubsetEq ts os
  | .Union ts, other => tyListContains ts other
  | self, .Union ts => tyListContains ts self
  | a, b => tyAtomEq a b
termination_by a b => sizeOf a + sizeOf b

/-- `Vec::contains` specialised to `Type`, as invoked inside
`impl PartialEq for Type` (each element is compared element == probe). -/
def tyListContains : List Ty → Ty → Bool
  | [], _ => false
  | o :: rest, t => tyEq o t || tyListContains rest t
termination_by l t => sizeOf l + sizeOf t

/-- The `for typ in types { if !other_types.contains(typ) { return false } }`
loop of the Union-vs-Union branch: every member of the first list must be
contained in the second. -/
def tySubsetEq : List Ty → List Ty → Bool
  | [], _ => true
  | t :: rest, os => tyListContains os t && tySubsetEq rest os
termination_by l os => sizeOf l + sizeOf os
end

/-- Discriminator for the `Union` variant (used to state where the source's
type equality is symmetric). -/
def tyIsUnion : Ty → Bool
  | .Union _ => true
  | _ => false

mutual
/-- `impl Debug for Type` (values.rs lines 53-69): fixed lowercase names,
with a `Union` rendered as its members joined by "|". -/
def tyRender : Ty → String
  | .Undefined => "undefined"
  | .Any => "any"
  | .Int => "int"
  | .Float => "float"
  | .Bool => "bool"
  | .String => "str"
  | .NativFunction => "nativ-function"
  | .Function => "function"
  | .Addr => "addr"
  | .Closure => "closure"
  | .Union ts => String.intercalate "|" (tyRenderList ts)
  | .Type => "type"
termination_by t => sizeOf t

/-- The `types.iter().map(|x| x.to_string()).collect()` step of the Union
arm of `impl Debug for Type`. -/
def tyRenderList : List Ty → List String
  | [] => []
  | t :: rest => tyRender t :: tyRenderList rest
termination_by l => sizeOf l
end

/-- The value enum `V` of `values.rs` (the source spells the wildcard
variant `Wirldcard`). -/
inductive V where
  | Null
  | Wirldcard
  | Int (v : ℤ)
  | Float (v : ℚ)
  | Bool (v : Bool)
  | String (v : String)
  | Addr (v : String)
  | Closure (v : Node)
  | NativFunction (params : List Ty) (f : NativFn)
  | Function (patterns : List Node) (body : Node)
  | Type (t : Ty)

/-- `V::typ` (values.rs lines 117-131): the total projection of a value onto
its runtime type tag. -/
def vTyp : V → Ty
  | .Null => Ty.Undefined
  | .Wirldcard => Ty.Any
  | .Int _ => Ty.Int
  | .Float _ => Ty.Float
  | .Bool _ => Ty.Bool
  | .String _ => Ty.String
  | .Addr _ => Ty.Addr
  | .Closure _ => Ty.Closure
  | .NativFunction _ _ => Ty.NativFunction
  | .Function _ _ => Ty.Function
  | .Type _ => Ty.Type

/-- Smallest `i64` value. -/
def i64Min : ℤ := -(2 ^ 63)

/-- Largest `i64` value. -/
def i64Max : ℤ := 2 ^ 63 - 1

/-- Two's-complement wraparound into the `i64` range, the host-default
release-mode behaviour of Rust's `+ - *` on `i64` (the overflow policy the
spec designates as the reference). -/
def wrap64 (n : ℤ) : ℤ := (n + 2 ^ 63) % 2 ^ 64 - 2 ^ 63

/-- Truncation of a rational toward zero (`Int.tdiv` is the
round-toward-zero integer division). -/
def ratTrunc (q : ℚ) : ℤ := Int.tdiv q.num q.den

/-- Rust's `as i64` applied to an `f64` (here an exact `ℚ`): truncation
toward zero, saturated to the `i64` range. -/
def f64AsI64 (q : ℚ) : ℤ := max i64Min (min i64Max (ratTrunc q))

/-- Rust's `as i64` applied to a `bool`: 1 for true, 0 for false. -/
def boolAsI64 (b : Bool) : ℤ := if b then 1 else 0

/-- `impl Debug for V` (values.rs lines 202-218), which `Display` forwards
to and `to_string` renders.  The `Closure`, `NativFunction` and `Function`
arms print opaque identity tokens supplied from outside this module; they are
carried abstractly by `Node.txt` / `NativFn.id`.  The `Float` arm is a
stand-in rendering of the exact rational model. -/
def vRender : V → String
  | .Null => "null"
  | .Wirldcard => "_"
  | .Int v => toString v
  | .Float v => toString v
  | .Bool v => toString v
  | .String v => v
  | .Addr v => "@" ++ v
  | .Closure v => "#" ++ v.txt
  | .NativFunction _ f => "nativ-function:" ++ toString f.id
  | .Function _ body => "function:" ++ body.txt
  | .Type t => tyRender t

/-- `Type::cast` (values.rs lines 16-46): the total projection of a value
onto a requested type; unsupported combinations fall back to `Null`. -/
def tyCast : Ty → V → V
  | .Undefined, _ => V.Null
  | .Any, value => value
  | .Int, value =>
    match value with
    | .Null => V.Int 0
    | .Int v => V.Int v
    | .Float v => V.Int (f64AsI64 v)
    | .Bool v => V.Int (boolAsI64 v)
    | _ => V.Null
  | .Float, value =>
    match value with
    | .Null => V.Float 0
    | .Int v => V.Float (v : ℚ)
    | .Float v => V.Float v
    | .Bool v => V.Float ((boolAsI64 v : ℤ) : ℚ)
    | _ => V.Null
  | .Bool, value =>
    match value with
    | .Null => V.Bool false
    | .Int v => V.Bool (v != 0)
    | .Float v => V.Bool (v != 0)
    | .Bool v => V.Bool v
    | _ => V.Null
  | .String, value => V.String (vRender value)
  | .Addr, value => V.Addr (vRender value)
  | .Type, value => V.Type (vTyp value)
  | _, _ => V.Null

/-- `V::add` (values.rs lines 132-150): Int/Float promotion plus string
concatenation; every other combination is `none`. -/
def vAdd : V → V → Option V
  | .Int v1, .Int v2 => some (V.Int (wrap64 (v1 + v2)))
  | .Int v1, .Float v2 => some (V.Float ((v1 : ℚ) + v2))
  | .Int _, _ => none
  | .Float v1, .Float v2 => some (V.Float (v1 + v2))
  | .Float v1, .Int v2 => some (V.Float (v1 + (v2 : ℚ)))
  | .Float _, _ => none
  | .String v1, .String v2 => some (V.String (v1 ++ v2))
  | .String _, _ => none
  | _, _ => none

/-- `V::sub` (values.rs lines 151-165): Int/Float promotion only. -/
def vSub : V → V → Option V
  | .Int v1, .Int v2 => some (V.Int (wrap64 (v1 - v2)))
  | .Int v1, .Float v2 => some (V.Float ((v1 : ℚ) - v2))
  | .Int _, _ => none
  | .Float v1, .Float v2 => some (V.Float (v1 - v2))
  | .Float v1, .Int v2 => some (V.Float (v1 - (v2 : ℚ)))
  | .Float _, _ => none
  | _, _ => none

/-- `V::mul` (values.rs lines 166-180): Int/Float promotion only. -/
def vMul : V → V → Option V
  | .Int v1, .Int v2 => some (V.Int (wrap64 (v1 * v2)))
  | .Int v1, .Float v2 => some (V.Float ((v1 : ℚ) * v2))
  | .Int _, _ => none
  | .Float v1, .Float v2 => some (V.Float (v1 * v2))
  | .Float v1, .Int v2 => some (V.Float (v1 * (v2 : ℚ)))
  | .Float _, _ => none
  | _, _ => none

/-- `V::div` (values.rs lines 181-195): both `Int` operands are converted to
floats before dividing, so an Int/Int division already yields a `Float`. -/
def vDiv : V → V → Option V
  | .Int v1, .Int v2 => some (V.Float ((v1 : ℚ) / (v2 : ℚ)))
  | .Int v1, .Float v2 => some (V.Float ((v1 : ℚ) / v2))
  | .Int _, _ => none
  | .Float v1, .Float v2 => some (V.Float (v1 / v2))
  | .Float v1, .Int v2 => some (V.Float (v1 / (v2 : ℚ)))
  | .Float _, _ => none
  | _, _ => none

/-- `impl PartialEq for V` (values.rs lines 219-234): `Wirldcard` on either
side is true, then the listed pairings, and every remaining pair false. -/
def vEq : V → V → Bool
  | .Wirldcard, _ => true
  | _, .Wirldcard => true
  | .Null, .Null => true
  | .Int v1, .Int v2 => v1 == v2
  | .Int v1, .Float v2 => ((v1 : ℚ) == v2)
  | .Float v1, .Int v2 => (v1 == (v2 : ℚ))
  | .Float v1, .Float v2 => v1 == v2
  | .Bool v1, .Bool v2 => v1 == v2
  | .String v1, .String v2 => v1 == v2
  | _, _ => false

/-- Discriminator: is the value an `Int` or a `Float`? -/
def vIsNumeric : V → Bool
  | .Int _ => true
  | .Float _ => true
  | _ => false

/-- Discriminator: is the value an `Int`, a `Float` or a `String`? -/
def vIsNumericOrString : V → Bool
  | .Int _ => true
  | .Float _ => true
  | .String _ => true
  | _ => false

/-- Boolean equality via a lawful BEq instance is symmetric. -/
theorem beqComm {α : Type} [BEq α] [LawfulBEq α] (a b : α) : (a == b) = (b == a) := by
  by_cases h : a = b
  · subst h; rfl
  · rw [beq_eq_false_iff_ne.mpr h, beq_eq_false_iff_ne.mpr (Ne.symm h)]

/-- Unfolding of the specialised Vec::contains: some member of the list
compares equal (member on the left) to the probe. -/
theorem tyListContains_iff (l : List Ty) (t : Ty) :
    tyListContains l t = true ↔ ∃ o ∈ l, tyEq o t = true := by
  induction l with
  | nil => simp [tyListContains]
  | cons o rest ih => simp [tyListContains, Bool.or_eq_true, ih]

/-- Unfolding of the Union-vs-Union containment loop: every member of the
first list is contained in the second. -/
theorem tySubsetEq_iff (l os : List Ty) :
    tySubsetEq l os = true ↔ ∀ t ∈ l, tyListContains os t = true := by
  induction l with
  | nil => simp [tySubsetEq]
  | cons t rest ih => simp [tySubsetEq, Bool.and_eq_true, ih]

/-- The source's type equality is reflexive (auxiliary strong induction on
the size of the type). -/
theorem tyEq_refl_aux (n : ℕ) : ∀ t : Ty, sizeOf t ≤ n → tyEq t t = true := by
  induction n with
  | zero =>
    intro t h
    exfalso
    cases t <;> simp at h
  | succ n ih =>
    intro t h
    cases t
    case Union ts =>
      rw [show tyEq (Ty.Union ts) (Ty.Union ts) = tySubsetEq ts ts from by simp [tyEq]]
      rw [tySubsetEq_iff]
      intro t' ht'
      rw [tyListContains_iff]
      refine ⟨t', ht', ih t' ?_⟩
      have h1 := List.sizeOf_lt_of_mem ht'
      have h2 : sizeOf (Ty.Union ts) = 1 + sizeOf ts := by simp
      omega
    all_goals simp [tyEq, tyAtomEq]

/-- The source's type equality is reflexive. -/
theorem tyEq_refl (t : Ty) : tyEq t t = true := tyEq_refl_aux (sizeOf t) t le_rfl

/-- The source's type equality is symmetric whenever at most one operand is
a Union: Any-vs-anything is true both ways, a Union against a non-union
checks the same containment expression in both orders, and the atomic match
is symmetric. -/
theorem tyEq_symm_of_not_both_union (a b : Ty)
    (h : tyIsUnion a = false ∨ tyIsUnion b = false) : tyEq a b = tyEq b a := by
  cases a <;> cases b <;> simp_all [tyEq, tyIsUnion, tyAtomEq]

/-- C1: when both sides are Union types, the source's equality holds exactly
when every member of the left-hand (self) union is contained in the
right-hand (other) union's members; consequently
Union([Int, Float]) == Union([Int, Float, Bool]) is true while
Union([Int, Float, Bool]) == Union([Int, Float]) is false — the opposite
orientation of the one the claim states. -/
theorem c1_theorem :
    (∀ ts os : List Ty,
      tyEq (Ty.Union ts) (Ty.Union os) = true ↔ ∀ t ∈ ts, ∃ o ∈ os, tyEq o t = true)
    ∧ tyEq (Ty.Union [Ty.Int, Ty.Float]) (Ty.Union [Ty.Int, Ty.Float, Ty.Bool]) = true
    ∧ tyEq (Ty.Union [Ty.Int, Ty.Float, Ty.Bool]) (Ty.Union [Ty.Int, Ty.Float]) = false := by
  refine ⟨fun ts os => ?_, ?_, ?_⟩
  · rw [show tyEq (Ty.Union ts) (Ty.Union os) = tySubsetEq ts os from by simp [tyEq]]
    rw [tySubsetEq_iff]
    constructor
    · intro h t ht
      exact (tyListContains_iff os t).mp (h t ht)
    · intro h t ht
      exact (tyListContains_iff os t).mpr (h t ht)
  · simp [tyEq, tySubsetEq, tyListContains, tyAtomEq]
  · simp [tyEq, tySubsetEq, tyListContains, tyAtomEq]

/-- C1 witness: the containment criterion applied at a concrete pair of
unions, Union([Int]) == Union([Int, Float]). -/
theorem c1_witness : tyEq (Ty.Union [Ty.Int]) (Ty.Union [Ty.Int, Ty.Float]) = true :=
  (c1_theorem.1 [Ty.Int] [Ty.Int, Ty.Float]).mpr (by
    intro t ht
    rw [List.mem_singleton] at ht
    subst ht
    exact ⟨Ty.Int, by simp, by simp [tyEq, tyAtomEq]⟩)

/-- C1 counterexample: the claim's two concrete evaluations come out the
opposite way round on the code — comparing the smaller union against the
larger one is true, and the larger against the smaller is false. -/
theorem c1_counterexample :
    tyEq (Ty.Union [Ty.Int, Ty.Float]) (Ty.Union [Ty.Int, Ty.Float, Ty.Bool]) = true
    ∧ tyEq (Ty.Union [Ty.Int, Ty.Float, Ty.Bool]) (Ty.Union [Ty.Int, Ty.Float]) = false := by
  constructor <;> simp [tyEq, tySubsetEq, tyListContains, tyAtomEq]

/-- C2: the source's type equality is reflexive for every type, and it is
symmetric whenever at most one operand is a Union (it is not symmetric for
two Unions, see the counterexample). -/
theorem c2_theorem :
    (∀ t : Ty, tyEq t t = true)
    ∧ (∀ a b : Ty, tyIsUnion a = false ∨ tyIsUnion b = false → tyEq a b = tyEq b a) :=
  ⟨tyEq_refl, tyEq_symm_of_not_both_union⟩

/-- C2 witness: reflexivity at Int and symmetry at the non-union pair
(Int, Float). -/
theorem c2_witness :
    tyEq Ty.Int Ty.Int = true ∧ tyEq Ty.Int Ty.Float = tyEq Ty.Float Ty.Int :=
  ⟨c2_theorem.1 Ty.Int, c2_theorem.2 Ty.Int Ty.Float (Or.inl rfl)⟩

/-- C2 counterexample: type equality is not symmetric once two Unions are
involved — Union([Int]) == Union([Int, Bool]) is true but the converse is
false. -/
theorem c2_counterexample :
    tyEq (Ty.Union [Ty.Int]) (Ty.Union [Ty.Int, Ty.Bool]) = true
    ∧ tyEq (Ty.Union [Ty.Int, Ty.Bool]) (Ty.Union [Ty.Int]) = false := by
  constructor <;> simp [tyEq, tySubsetEq, tyListContains, tyAtomEq]

/-- C3 (amended): for the target types Undefined, Int, Float, Bool and
String, casting a value whose runtime type equals the target returns a value
equal to the input.  (For the Addr, Closure, NativeFunction, Function and
Type targets the claim fails, see the counterexample: value equality is
always false on those variants, and the Addr cast re-renders its input.) -/
theorem c3_theorem (t : Ty) (v : V)
    (ht : t = Ty.Undefined ∨ t = Ty.Int ∨ t = Ty.Float ∨ t = Ty.Bool ∨ t = Ty.String)
    (hv : tyEq (vTyp v) t = true) :
    vEq (tyCast t v) v = true := by
  rcases ht with rfl | rfl | rfl | rfl | rfl <;> cases v <;>
    simp_all [vTyp, tyEq, tyAtomEq, tyCast, vEq, vRender]

/-- C3 witness: casting Int(5) to Int returns a value equal to Int(5). -/
theorem c3_witness : vEq (tyCast Ty.Int (V.Int 5)) (V.Int 5) = true :=
  c3_theorem Ty.Int (V.Int 5) (Or.inr (Or.inl rfl))
    (by simp [vTyp, tyEq, tyAtomEq])

/-- C3 counterexample: Addr is an atomic, non-union type and
Addr("x").typ() == Addr holds, yet cast(Addr, Addr("x")) is not equal to
Addr("x") — the cast re-renders the value to Addr("@x") and value equality
on two Addr values is false in any case. -/
theorem c3_counterexample :
    tyEq (vTyp (V.Addr "x")) Ty.Addr = true
    ∧ vEq (tyCast Ty.Addr (V.Addr "x")) (V.Addr "x") = false := by
  constructor
  · simp [vTyp, tyEq, tyAtomEq]
  · simp [tyCast, vEq]

/-- C4: casting any value to the Type target yields the Type value carrying
the input's runtime type, and the runtime type of that result is Type. -/
theorem c4_theorem (v : V) :
    tyCast Ty.Type v = V.Type (vTyp v) ∧ vTyp (tyCast Ty.Type v) = Ty.Type := by
  refine ⟨?_, ?_⟩ <;> cases v <;> rfl

/-- C5: add, sub and mul on two Ints return Int results and div on two Ints
returns the Float obtained by converting both operands to floating point
before dividing; concretely Int(3) + Int(4) = Int(7) and
Int(7) / Int(2) = Float(3.5). -/
theorem c5_theorem (a b : ℤ) :
    (∃ c, vAdd (V.Int a) (V.Int b) = some (V.Int c))
    ∧ (∃ c, vSub (V.Int a) (V.Int b) = some (V.Int c))
    ∧ (∃ c, vMul (V.Int a) (V.Int b) = some (V.Int c))
    ∧ vDiv (V.Int a) (V.Int b) = some (V.Float ((a : ℚ) / (b : ℚ)))
    ∧ vAdd (V.Int 3) (V.Int 4) = some (V.Int 7)
    ∧ vDiv (V.Int 7) (V.Int 2) = some (V.Float (7/2 : ℚ)) := by
  refine ⟨⟨wrap64 (a + b), rfl⟩, ⟨wrap64 (a - b), rfl⟩, ⟨wrap64 (a * b), rfl⟩, rfl, ?_, ?_⟩
  · have h : wrap64 7 = 7 := by decide
    simp [vAdd, h]
  · simp only [vDiv, Option.some.injEq, V.Float.injEq]
    norm_num

/-- C6 (amended): the Int-target cast table — Null gives Int(0), Int(n) is
unchanged, Float(f) gives the truncation of f toward zero saturated to the
64-bit signed range (within the range it is exactly the truncation; beyond
it the result clamps to the nearest i64 bound), Bool gives Int(1)/Int(0),
and every other source variant gives Null. -/
theorem c6_theorem :
    tyCast Ty.Int V.Null = V.Int 0
    ∧ (∀ n : ℤ, tyCast Ty.Int (V.Int n) = V.Int n)
    ∧ (∀ q : ℚ, i64Min ≤ ratTrunc q → ratTrunc q ≤ i64Max →
        tyCast Ty.Int (V.Float q) = V.Int (ratTrunc q))
    ∧ (∀ q : ℚ, i64Max < ratTrunc q → tyCast Ty.Int (V.Float q) = V.Int i64Max)
    ∧ (∀ q : ℚ, ratTrunc q < i64Min → tyCast Ty.Int (V.Float q) = V.Int i64Min)
    ∧ (∀ b, tyCast Ty.Int (V.Bool b) = V.Int (if b then 1 else 0))
    ∧ tyCast Ty.Int V.Wirldcard = V.Null
    ∧ (∀ s, tyCast Ty.Int (V.String s) = V.Null)
    ∧ (∀ s, tyCast Ty.Int (V.Addr s) = V.Null)
    ∧ (∀ node, tyCast Ty.Int (V.Closure node) = V.Null)
    ∧ (∀ ps f, tyCast Ty.Int (V.NativFunction ps f) = V.Null)
    ∧ (∀ ps body, tyCast Ty.Int (V.Function ps body) = V.Null)
    ∧ (∀ t, tyCast Ty.Int (V.Type t) = V.Null) := by
  refine ⟨rfl, fun n => rfl, ?_, ?_, ?_, ?_, rfl, fun s => rfl, fun s => rfl,
    fun node => rfl, fun ps f => rfl, fun ps body => rfl, fun t => rfl⟩
  · intro q h1 h2
    simp only [tyCast, f64AsI64, V.Int.injEq]
    simp only [i64Min, i64Max] at h1 h2 ⊢
    omega
  · intro q h
    simp only [tyCast, f64AsI64, V.Int.injEq]
    simp only [i64Min, i64Max] at h ⊢
    omega
  · intro q h
    simp only [tyCast, f64AsI64, V.Int.injEq]
    simp only [i64Min, i64Max] at h ⊢
    omega
  · intro b
    cases b <;> rfl

/-- C6 witness: the table at in-range inputs — casting Float(3.5) to Int
yields the truncation Int(3). -/
theorem c6_witness : tyCast Ty.Int (V.Float (7/2 : ℚ)) = V.Int 3 := by
  have hq : (7/2 : ℚ) = mkRat 7 2 := by norm_num [Rat.mkRat_eq_div]
  have hr : ratTrunc (7/2 : ℚ) = 3 := by rw [hq]; decide
  have h := c6_theorem.2.2.1 (7/2 : ℚ) (by rw [hr]; decide) (by rw [hr]; decide)
  rw [h, hr]

/-- C6 counterexample: for the float 2^63 (exactly representable in f64) the
code saturates: the cast yields Int(2^63 - 1), which is not the truncation
toward zero of 2^63. -/
theorem c6_counterexample :
    tyCast Ty.Int (V.Float (9223372036854775808 : ℚ)) = V.Int 9223372036854775807
    ∧ ratTrunc (9223372036854775808 : ℚ) = 9223372036854775808
    ∧ (9223372036854775807 : ℤ) ≠ 9223372036854775808 := by
  have hr : ratTrunc (9223372036854775808 : ℚ) = 9223372036854775808 := by decide
  refine ⟨?_, hr, by decide⟩
  simp only [tyCast, f64AsI64, hr, i64Min, i64Max, V.Int.injEq]
  decide

/-- C7: the Wirldcard value compares equal to every value in either operand
position, itself included. -/
theorem c7_theorem (v : V) : vEq V.Wirldcard v = true ∧ vEq v V.Wirldcard = true :=
  ⟨by cases v <;> rfl, by cases v <;> rfl⟩

/-- C8: sub, mul and div are absent whenever either operand is not numeric;
add on two Strings concatenates and is otherwise absent for non-numeric
operands; sub, mul and div on two Strings are absent; and whenever either
operand is neither numeric nor a String, all four operations are absent. -/
theorem c8_theorem :
    (∀ v w : V, vIsNumeric v = false ∨ vIsNumeric w = false →
      vSub v w = none ∧ vMul v w = none ∧ vDiv v w = none
      ∧ (vAdd v w = none ∨ ∃ s t, v = V.String s ∧ w = V.String t))
    ∧ (∀ s t, vAdd (V.String s) (V.String t) = some (V.String (s ++ t))
      ∧ vSub (V.String s) (V.String t) = none
      ∧ vMul (V.String s) (V.String t) = none
      ∧ vDiv (V.String s) (V.String t) = none)
    ∧ (∀ v w : V, vIsNumericOrString v = false ∨ vIsNumericOrString w = false →
      vAdd v w = none ∧ vSub v w = none ∧ vMul v w = none ∧ vDiv v w = none) := by
  refine ⟨?_, ?_, ?_⟩
  · intro v w h
    cases v <;> cases w <;> simp_all [vIsNumeric, vAdd, vSub, vMul, vDiv]
  · intro s t
    exact ⟨rfl, rfl, rfl, rfl⟩
  · intro v w h
    cases v <;> cases w <;> simp_all [vIsNumericOrString, vAdd, vSub, vMul, vDiv]

/-- C8 witness: a Bool operand makes all four operations absent, and string
addition concatenates. -/
theorem c8_witness :
    vAdd (V.Bool true) (V.Int 1) = none
    ∧ vAdd (V.String "a") (V.String "b") = some (V.String "ab") :=
  ⟨(c8_theorem.2.2 (V.Bool true) (V.Int 1) (Or.inl rfl)).1,
    (c8_theorem.2.1 "a" "b").1⟩

/-- C9: for every target type other than Any, the cast result either has
runtime type equal to the target or is the Null value; and for the String,
Addr and Type targets the result's runtime type is always exactly the
target. -/
theorem c9_theorem (t : Ty) (v : V) (h : t ≠ Ty.Any) :
    (vTyp (tyCast t v) = t ∨ tyCast t v = V.Null)
    ∧ ((t = Ty.String ∨ t = Ty.Addr ∨ t = Ty.Type) → vTyp (tyCast t v) = t) := by
  cases t
  case Any => exact absurd rfl h
  all_goals refine ⟨?_, fun hd => ?_⟩
  all_goals
    first
    | (refine Or.inl ?_; cases v <;> rfl)
    | (refine Or.inr ?_; cases v <;> rfl)
    | (cases v <;> rfl)
    | simp at hd
    | (cases v <;> simp [tyCast, vTyp])

/-- C9 witness: casting a Bool to the String target produces a value whose
runtime type is String. -/
theorem c9_witness : vTyp (tyCast Ty.String (V.Bool true)) = Ty.String :=
  (c9_theorem Ty.String (V.Bool true) (fun h => nomatch h)).2 (Or.inl rfl)

/-- C10: value equality is symmetric — every rule of the source's
PartialEq for V (the wildcard escape, Null, the numeric comparisons with
Int-to-Float widening, Bool, String, and the catch-all false) is checked in
both operand orders. -/
theorem c10_theorem (v w : V) : vEq v w = vEq w v := by
  cases v <;> cases w <;> first | rfl | exact beqComm _ _
